import Mathlib

/-!
Shallow embedding of `verify.py`, a GitHub feature-commit verification
script, together with proofs about the claims of its specification.

Python strings are modelled as `List Char` (a Python `str` is a sequence of
code points).  Network traffic and library decoding are modelled as oracle
parameters: the functions under verification receive the outcome of each
external call as an explicit argument, so every definition is executable.
-/

namespace CommitDocVerifier

/-- Abbreviation turning a Lean string literal into the `List Char` model of
a Python string. -/
def cl (s : String) : List Char := s.data

/-- Whitespace predicate used by Python's `str.strip()` (restricted to the
ASCII whitespace characters; the documents in play contain no other
whitespace code points). -/
def pyIsSpace (ch : Char) : Bool :=
  ch = ' ' || ch = '\t' || ch = '\n' || ch = '\r' ||
  ch = Char.ofNat 11 || ch = Char.ofNat 12

/-- `isPrefixOfL p l` holds when the list `p` is an initial segment of `l`. -/
def isPrefixOfL : List Char → List Char → Bool
  | [], _ => true
  | _ :: _, [] => false
  | a :: p, b :: l => a = b && isPrefixOfL p l

/-- Embedding of Python's substring test `needle in hay`. -/
def pyIn (needle : List Char) : List Char → Bool
  | [] => isPrefixOfL needle []
  | a :: t => isPrefixOfL needle (a :: t) || pyIn needle t

/-- Embedding of Python's `s.split(sep)` for a one-character separator:
splits at every occurrence, keeping empty segments, so the result always has
one more element than the number of separators. -/
def pySplit (c : Char) : List Char → List (List Char)
  | [] => [[]]
  | a :: t =>
    let r := pySplit c t
    if a = c then [] :: r
    else (a :: r.headD []) :: r.tail

/-- Embedding of Python's `s.strip()`: remove whitespace from both ends. -/
def pyStrip (s : List Char) : List Char :=
  ((s.dropWhile pyIsSpace).reverse.dropWhile pyIsSpace).reverse

/-- Embedding of `s.split("\n")[0]`, the first line of a string. -/
def firstLine (s : List Char) : List Char :=
  (pySplit '\n' s).headD []

/-- One character of the class `[a-f0-9]`. -/
def isLowerHex (ch : Char) : Bool :=
  ('a' ≤ ch && ch ≤ 'f') || ('0' ≤ ch && ch ≤ '9')

/-- A string that matches the regular expression `^[a-f0-9]{40}$` in the
strict (full-match) sense: exactly forty lowercase hexadecimal characters. -/
def shaExact (s : List Char) : Bool :=
  s.length = 40 && s.all isLowerHex

/-- Embedding of Python's `re.match(r'^[a-f0-9]{40}$', s)`: in Python, `$`
also matches just before a single trailing newline, so the code accepts both
a bare forty-hex string and one followed by one `'\n'`. -/
def pythonReMatchSha (s : List Char) : Bool :=
  (s.take 40).length = 40 && (s.take 40).all isLowerHex &&
  (decide (s.drop 40 = []) || decide (s.drop 40 = ['\n']))

/-- The ten-character core of the date pattern `\d{4}-\d{2}-\d{2}` (with
`\d` read as an ASCII digit; Python's `\d` additionally accepts non-ASCII
decimal digits, which never occur in the configurations in play). -/
def dateCore (s : List Char) : Bool :=
  match s with
  | [a, b, c, d, e, f, g, h, i, j] =>
    a.isDigit && b.isDigit && c.isDigit && d.isDigit && e = '-' &&
    f.isDigit && g.isDigit && h = '-' && i.isDigit && j.isDigit
  | _ => false

/-- Embedding of Python's `re.match(r"^\d{4}-\d{2}-\d{2}$", s)` (again `$`
accepts one trailing newline). -/
def pyMatchDate (s : List Char) : Bool :=
  dateCore (s.take 10) &&
  (decide (s.drop 10 = []) || decide (s.drop 10 = ['\n']))

/-- One parsed feature-table row (`FeatureRecord` of the specification),
as built by `parse_feature_table` in `verify.py`. -/
structure Feature where
  name : List Char
  sha : List Char
  author : List Char
  branch : List Char
  date : List Char
  files_changed : List Char
  message : List Char
  deriving DecidableEq, Repr

/-- The line-scanning loop of `parse_feature_table` (`verify.py`,
lines 225-259).  The second argument is the `table_started` flag; the
`header_found` flag of the source is never read afterwards and is omitted.
Each line is stripped first; a line containing the header marker flips the
flag and is consumed; before the flag is set everything is skipped; once
set, a line starting with `##` ends the scan, a `|`-line containing `---`
is a separator, and any other `|`-line with at least seven cells (after
dropping the two outer segments and stripping each cell) yields a record. -/
def parseLoop (table_header : List Char) : List (List Char) → Bool → List Feature
  | [], _ => []
  | rawLine :: rest, table_started =>
    let line := pyStrip rawLine
    if pyIn table_header line then parseLoop table_header rest true
    else if table_started = false then parseLoop table_header rest false
    else if isPrefixOfL (cl "##") line then []
    else if isPrefixOfL (cl "|") line && pyIn (cl "---") line then
      parseLoop table_header rest table_started
    else if isPrefixOfL (cl "|") line then
      let cells := (((pySplit '|' line).drop 1).dropLast).map pyStrip
      if 7 ≤ cells.length then
        { name := cells.getD 0 [], sha := cells.getD 1 [],
          author := cells.getD 2 [], branch := cells.getD 3 [],
          date := cells.getD 4 [], files_changed := cells.getD 5 [],
          message := cells.getD 6 [] } :: parseLoop table_header rest table_started
      else parseLoop table_header rest table_started
    else parseLoop table_header rest table_started

/-- Embedding of `parse_feature_table` (`verify.py`, lines 215-261). -/
def parse_feature_table (content : List Char) (table_header : List Char) : List Feature :=
  parseLoop table_header (pySplit '\n' content) false

/-- JSON body of a successful `GET /contents` response, as observed by
`fetch_github_file`: the optional `encoding` marker and the optional
`content` field. -/
structure ContentResponse where
  encoding : Option (List Char)
  content : Option (List Char)
  deriving DecidableEq, Repr

/-- Outcome of the single HTTP request issued by `fetch_github_file`
(retries inside the `requests` session are transparent to the caller and
are folded into this final outcome, as in the source).  `httpResponse`
carries the status code and the parsed JSON body (`none` when the body was
not valid JSON, which raises inside `response.json()`); `timeout` is
`requests.Timeout`; `raised` is any other exception during the call. -/
inductive FetchEvent where
  | httpResponse (status : Nat) (json : Option ContentResponse)
  | timeout
  | raised
  deriving DecidableEq, Repr

/-- Embedding of `fetch_github_file` (`verify.py`, lines 109-149).
`b64dec` is the oracle for `base64.b64decode(.).decode("utf-8")`, with
`none` meaning the library call raised (the exception is caught by the
generic handler and becomes a `None` return).  Note that every one of the
failure branches — 404, 403, any other non-200 status, timeout, and generic
exception — returns the same value `none`; the branches differ only in the
diagnostic text printed to stderr, which the caller does not receive. -/
def fetch_github_file (b64dec : List Char → Option (List Char))
    (ev : FetchEvent) : Option (List Char) :=
  match ev with
  | .httpResponse status json =>
    if status = 200 then
      match json with
      | none => none
      | some data =>
        if data.encoding = some (cl "base64") then
          match data.content with
          | none => none
          | some raw => b64dec raw
        else some (data.content.getD [])
    else if status = 404 then none
    else if status = 403 then none
    else none
  | .timeout => none
  | .raised => none

/-- The `author` value of a commit-detail JSON body: the key may be absent,
null, a JSON object (whose `login` member may be missing), or a non-object
value (which `verify_commit` rejects as malformed). -/
inductive JsonAuthor where
  | absent
  | null
  | dict (login : Option (List Char))
  | nonDict
  deriving DecidableEq, Repr

/-- A dict-shaped commit-detail JSON body as observed by `verify_commit`:
presence of the required top-level keys `sha` and `commit`, the first-class
`author` value, and `commit["message"]` when present.  (A `commit` value
that is itself not a dict would raise uncaught inside `run_verification`;
no configuration in play produces one and it is outside this model.) -/
structure CommitJson where
  has_sha : Bool
  has_commit : Bool
  commit_message : Option (List Char)
  author : JsonAuthor
  deriving DecidableEq, Repr

/-- A parsed commit-lookup JSON body, which need not be a dict: Python's
`'sha' in body` membership tests also run on lists and strings.  For a
non-dict body only the three membership-test outcomes are relevant. -/
inductive CommitBody where
  | dictBody (j : CommitJson)
  | nonDictBody (has_sha has_commit has_author : Bool)
  deriving DecidableEq, Repr

/-- Outcome of the HTTP request issued by `verify_commit`, analogous to
`FetchEvent` (`none` JSON models a `json.JSONDecodeError`). -/
inductive CommitApiEvent where
  | httpResponse (status : Nat) (json : Option CommitBody)
  | timeout
  | raised
  deriving DecidableEq, Repr

/-- The projection of a returned commit-detail dict that `run_verification`
observes: `author = none` models `commit_detail.get('author') is None`
(key absent or null); `author = some login` models a dict-valued author
with its optional `login` member; `commitMessage` models
`commit_detail.get("commit", {}).get("message", "")` before the default. -/
structure CommitDetail where
  author : Option (Option (List Char))
  commitMessage : Option (List Char)
  deriving DecidableEq, Repr

/-- Value returned by a successful `verify_commit`: the commit-detail dict
(projected to the fields `run_verification` reads), or a non-dict JSON body
that slipped through the membership checks (caught by the
`isinstance(commit_detail, dict)` guard in `run_verification`). -/
inductive VCResult where
  | dictDetail (cd : CommitDetail)
  | nonDictJson
  deriving DecidableEq, Repr

/-- Embedding of `verify_commit` (`verify.py`, lines 151-210).  `api` is
the network oracle; the second component of the result is the list of SHAs
for which a network request was actually issued (`[]` or `[commit_sha]`),
used to express the no-network-call claims.  The format precondition uses
Python's `re.match` semantics (`pythonReMatchSha`).  For a non-dict JSON
body, `'author' in body` being true leads to `body['author']`, which raises
`TypeError` and is caught by the generic handler, returning `None`. -/
def verify_commit (api : List Char → CommitApiEvent)
    (commit_sha : List Char) : Option VCResult × List (List Char) :=
  if pythonReMatchSha commit_sha = false then (none, [])
  else
    match api commit_sha with
    | .timeout => (none, [commit_sha])
    | .raised => (none, [commit_sha])
    | .httpResponse status json =>
      if status ≠ 200 then (none, [commit_sha])
      else
        match json with
        | none => (none, [commit_sha])
        | some (.nonDictBody has_sha has_commit has_author) =>
          if has_sha = false then (none, [commit_sha])
          else if has_commit = false then (none, [commit_sha])
          else if has_author then (none, [commit_sha])
          else (some .nonDictJson, [commit_sha])
        | some (.dictBody j) =>
          if j.has_sha = false then (none, [commit_sha])
          else if j.has_commit = false then (none, [commit_sha])
          else
            match j.author with
            | .nonDict => (none, [commit_sha])
            | .absent => (some (.dictDetail ⟨none, j.commit_message⟩), [commit_sha])
            | .null => (some (.dictDetail ⟨none, j.commit_message⟩), [commit_sha])
            | .dict login => (some (.dictDetail ⟨some login, j.commit_message⟩), [commit_sha])

/-- The `VerificationConfig` of the specification, as read by
`run_verification` from the loaded YAML mapping.  Expectation maps are
modelled as association lists; `expected_authors` has nullable values
(`sha → handle-or-null`). -/
structure VerificationConfig where
  target_repo : List Char
  target_branch : List Char
  feature_doc_path : List Char
  table_header : List Char
  required_sections : List (List Char)
  min_feature_count : Int
  expected_features : List (List Char × List Char)
  expected_authors : List (List Char × Option (List Char))
  expected_messages : List (List Char × List Char)
  expected_dates : List (List Char × List Char)

/-- Lookup in an association list with Python-dict semantics: a later
binding of the same key overwrites an earlier one (last binding wins),
and a missing key yields `none` (the behaviour of `dict.get`). -/
def dictGet {α : Type} : List (List Char × α) → List Char → Option α
  | [], _ => none
  | (k, v) :: t, key =>
    match dictGet t key with
    | some v' => some v'
    | none => if key = k then some v else none

/-- The dict comprehension `{feat["name"]: feat["sha"] for feat in features}`
of step 5 (duplicate names overwrite, handled by `dictGet`). -/
def featNameToSha (features : List Feature) : List (List Char × List Char) :=
  features.map fun f => (f.name, f.sha)

/-- The author check of `run_verification` (lines 359-374), given
`expected_author = expected_authors.get(feat_sha)` and the commit detail:
a null/absent actual author passes exactly when the expected author is also
null (the pass is logged as a warning); a present author passes exactly
when its `login` member exists, is non-empty, and equals the expected
handle (Python's `str != None` makes a null expectation fail here). -/
def author_check (expected_author : Option (List Char)) (cd : CommitDetail) : Bool :=
  match cd.author with
  | none => decide (expected_author = none)
  | some login =>
    match login with
    | none => false
    | some l => if l = [] then false else decide (expected_author = some l)

/-- The message and date checks of `run_verification` (lines 376-395):
first line of the commit message against `expected_messages.get(sha, "")`,
then the record's own date against the format pattern, then equality with
`expected_dates.get(sha)` (an absent key compares a string to `None`). -/
def message_date_checks (cfg : VerificationConfig) (feat : Feature)
    (cd : CommitDetail) : Bool :=
  decide (firstLine (cd.commitMessage.getD []) =
    (dictGet cfg.expected_messages feat.sha).getD []) &&
  pyMatchDate feat.date &&
  decide (some feat.date = dictGet cfg.expected_dates feat.sha)

/-- All per-commit field checks (lines 359-395) for one record whose
lookup succeeded with a dict-shaped detail. -/
def commit_field_checks (cfg : VerificationConfig) (feat : Feature)
    (cd : CommitDetail) : Bool :=
  author_check ((dictGet cfg.expected_authors feat.sha).join) cd &&
  message_date_checks cfg feat cd

/-- Step 6 of `run_verification` (lines 337-400): for each parsed record
whose sha is a key of `expected_authors`, validate the sha format, look the
commit up, and run the field checks; the first failure stops the run.  The
second component of the result is the ordered list of SHAs for which a
commit-lookup network request was issued.  (The `verified_count` counter of
the source is only printed and is not modelled.) -/
def step6 (cfg : VerificationConfig) (api : List Char → CommitApiEvent) :
    List Feature → Bool × List (List Char)
  | [] => (true, [])
  | feat :: rest =>
    if (dictGet cfg.expected_authors feat.sha).isNone then step6 cfg api rest
    else if pythonReMatchSha feat.sha = false then (false, [])
    else
      match verify_commit api feat.sha with
      | (none, calls) => (false, calls)
      | (some .nonDictJson, calls) => (false, calls)
      | (some (.dictDetail cd), calls) =>
        if commit_field_checks cfg feat cd then
          ((step6 cfg api rest).1, calls ++ (step6 cfg api rest).2)
        else (false, calls)

/-- Embedding of `run_verification` (`verify.py`, lines 263-406).  The
document fetch and commit lookups go through the oracles `b64dec`,
`fetchEv` and `api`.  Result: the returned boolean together with the
ordered list of SHAs for which a commit-lookup network request was issued.
A fetch returning `None` or the empty string fails immediately (`if not
doc_content`); then required sections, a non-empty parse, the minimum
count, and the name-to-sha cross-check are tested in order, each
returning `false` on first failure with no commit lookup performed. -/
def run_verification (cfg : VerificationConfig)
    (b64dec : List Char → Option (List Char)) (fetchEv : FetchEvent)
    (api : List Char → CommitApiEvent) : Bool × List (List Char) :=
  match fetch_github_file b64dec fetchEv with
  | none => (false, [])
  | some doc_content =>
    if doc_content = [] then (false, [])
    else if (cfg.required_sections.all fun s => pyIn s doc_content) = false then
      (false, [])
    else
      let features := parse_feature_table doc_content cfg.table_header
      if features.length = 0 then (false, [])
      else if (features.length : Int) < cfg.min_feature_count then (false, [])
      else if (cfg.expected_features.all fun p =>
          decide (dictGet (featNameToSha features) p.1 = some p.2)) = false then
        (false, [])
      else step6 cfg api features

/-! ### Substring lemmas for the parser -/

theorem isPrefixOfL_iff (p l : List Char) :
    isPrefixOfL p l = true ↔ ∃ r, l = p ++ r := by
  induction p generalizing l with
  | nil => simp [isPrefixOfL]
  | cons a p ih =>
    cases l with
    | nil => simp [isPrefixOfL]
    | cons b l =>
      simp only [isPrefixOfL, Bool.and_eq_true, decide_eq_true_eq, ih,
        List.cons_append, List.cons.injEq]
      constructor
      · rintro ⟨rfl, r, rfl⟩
        exact ⟨r, rfl, rfl⟩
      · rintro ⟨r, rfl, rfl⟩
        exact ⟨rfl, r, rfl⟩

theorem pyIn_iff (needle hay : List Char) :
    pyIn needle hay = true ↔ ∃ a b, hay = a ++ needle ++ b := by
  induction hay with
  | nil =>
    simp only [pyIn, isPrefixOfL_iff]
    constructor
    · rintro ⟨r, hr⟩
      exact ⟨[], r, hr⟩
    · rintro ⟨a, b, h⟩
      rcases List.append_eq_nil.mp h.symm with ⟨h1, h2⟩
      rcases List.append_eq_nil.mp h1 with ⟨rfl, rfl⟩
      exact ⟨[], by simp⟩
  | cons c t ih =>
    simp only [pyIn, Bool.or_eq_true, ih, isPrefixOfL_iff]
    constructor
    · rintro (⟨r, hr⟩ | ⟨x, y, rfl⟩)
      · exact ⟨[], r, by simpa using hr⟩
      · exact ⟨c :: x, y, rfl⟩
    · rintro ⟨x, y, h⟩
      cases x with
      | nil => exact Or.inl ⟨y, by simpa using h⟩
      | cons d x =>
        rcases List.cons.injEq .. ▸ h with ⟨rfl, h2⟩
        exact Or.inr ⟨x, y, h2⟩

theorem pySplit_ne_nil (c : Char) (s : List Char) : pySplit c s ≠ [] := by
  cases s with
  | nil => simp [pySplit]
  | cons a t =>
    simp only [pySplit]
    split <;> simp

theorem pySplit_headD_append (c : Char) (s : List Char) :
    ∃ r, s = (pySplit c s).headD [] ++ r := by
  induction s with
  | nil => exact ⟨[], rfl⟩
  | cons a t ih =>
    by_cases h : a = c
    · exact ⟨a :: t, by simp [pySplit, h]⟩
    · obtain ⟨r, hr⟩ := ih
      exact ⟨r, by simp [pySplit, h]; simpa [List.headD_eq_head?] using hr⟩

theorem mem_pySplit_substr (c : Char) (s l : List Char) (h : l ∈ pySplit c s) :
    ∃ a b, s = a ++ l ++ b := by
  induction s with
  | nil =>
    simp only [pySplit, List.mem_singleton] at h
    exact ⟨[], [], by simp [h]⟩
  | cons a t ih =>
    by_cases hc : a = c
    · simp only [pySplit, if_pos hc, List.mem_cons] at h
      rcases h with rfl | h
      · exact ⟨[], a :: t, rfl⟩
      · obtain ⟨x, y, hxy⟩ := ih h
        exact ⟨a :: x, y, by simp [hxy]⟩
    · simp only [pySplit, if_neg hc, List.mem_cons] at h
      rcases h with rfl | h
      · obtain ⟨r, hr⟩ := pySplit_headD_append c t
        exact ⟨[], r, by simp; simpa [List.headD_eq_head?] using hr⟩
      · have h' : l ∈ pySplit c t := by
          obtain ⟨h0, r0, hs⟩ : ∃ h0 r0, pySplit c t = h0 :: r0 := by
            cases e : pySplit c t with
            | nil => exact absurd e (pySplit_ne_nil c t)
            | cons h0 r0 => exact ⟨h0, r0, rfl⟩
          rw [hs] at h ⊢
          exact List.mem_cons_of_mem h0 h
        obtain ⟨x, y, hxy⟩ := ih h'
        exact ⟨a :: x, y, by simp [hxy]⟩

theorem dropWhile_suffix_append (p : Char → Bool) (l : List Char) :
    ∃ a, l = a ++ l.dropWhile p := by
  induction l with
  | nil => exact ⟨[], rfl⟩
  | cons x t ih =>
    by_cases h : p x
    · obtain ⟨a, ha⟩ := ih
      exact ⟨x :: a, by simp [List.dropWhile, h]; exact ha⟩
    · exact ⟨[], by simp [List.dropWhile, h]⟩

theorem pyStrip_substr (s : List Char) : ∃ a b, s = a ++ pyStrip s ++ b := by
  obtain ⟨a, ha⟩ := dropWhile_suffix_append pyIsSpace s
  obtain ⟨b, hb⟩ :=
    dropWhile_suffix_append pyIsSpace (s.dropWhile pyIsSpace).reverse
  refine ⟨a, b.reverse, ?_⟩
  have hu : s.dropWhile pyIsSpace = pyStrip s ++ b.reverse := by
    have := congrArg List.reverse hb
    simpa [pyStrip, List.reverse_append] using this
  conv_lhs => rw [ha, hu]
  rw [List.append_assoc]

theorem pyIn_trans (n small big : List Char) (h : pyIn n small = true)
    (hsub : ∃ a b, big = a ++ small ++ b) : pyIn n big = true := by
  rw [pyIn_iff] at h ⊢
  obtain ⟨x, y, rfl⟩ := h
  obtain ⟨a, b, rfl⟩ := hsub
  exact ⟨a ++ x, y ++ b, by simp⟩

theorem pipe_blocks_hash (s : List Char) (h : isPrefixOfL (cl "|") s = true) :
    isPrefixOfL (cl "##") s = false := by
  obtain ⟨r, rfl⟩ := (isPrefixOfL_iff _ _).mp h
  show isPrefixOfL ['#', '#'] ('|' :: r) = false
  simp [isPrefixOfL]

theorem parseLoop_no_header (H : List Char) (ls : List (List Char))
    (h : ∀ l ∈ ls, pyIn H (pyStrip l) = false) :
    parseLoop H ls false = [] := by
  induction ls with
  | nil => rfl
  | cons l rest ih =>
    have h1 : pyIn H (pyStrip l) = false := h l (List.mem_cons_self l rest)
    simp only [parseLoop, h1, Bool.false_eq_true, if_false, if_pos rfl]
    exact ih fun x hx => h x (List.mem_cons_of_mem l hx)

theorem parseLoop_congr_tail (H : List Char) (ls1 t1 t2 : List (List Char))
    (ht : ∀ b, parseLoop H t1 b = parseLoop H t2 b) :
    ∀ b, parseLoop H (ls1 ++ t1) b = parseLoop H (ls1 ++ t2) b := by
  induction ls1 with
  | nil => simpa using ht
  | cons x xs ih =>
    intro b
    by_cases h1 : pyIn H (pyStrip x) = true
    · simp [List.cons_append, parseLoop, h1, ih true]
    · replace h1 : pyIn H (pyStrip x) = false := by simpa using h1
      cases b with
      | false => simp [List.cons_append, parseLoop, h1, ih false]
      | true =>
        by_cases h2 : isPrefixOfL (cl "##") (pyStrip x) = true
        · simp [List.cons_append, parseLoop, h1, h2]
        · replace h2 : isPrefixOfL (cl "##") (pyStrip x) = false := by simpa using h2
          by_cases h4 : isPrefixOfL (cl "|") (pyStrip x) = true
          · by_cases hsep : pyIn (cl "---") (pyStrip x) = true
            · simp [List.cons_append, parseLoop, h1, h2, h4, hsep, ih true]
            · replace hsep : pyIn (cl "---") (pyStrip x) = false := by simpa using hsep
              by_cases h5 : 7 ≤ ((((pySplit '|' (pyStrip x)).drop 1).dropLast).map
                  pyStrip).length
              · simp [List.cons_append, parseLoop, h1, h2, h4, hsep, h5, ih true]
              · simp [List.cons_append, parseLoop, h1, h2, h4, hsep, h5, ih true]
          · replace h4 : isPrefixOfL (cl "|") (pyStrip x) = false := by simpa using h4
            simp [List.cons_append, parseLoop, h1, h2, h4, ih true]

theorem parseLoop_short_row_skip (H l : List Char)
    (hpipe : isPrefixOfL (cl "|") (pyStrip l) = true)
    (hnoh : pyIn H (pyStrip l) = false)
    (hshort : ((((pySplit '|' (pyStrip l)).drop 1).dropLast).map pyStrip).length < 7) :
    ∀ (t : List (List Char)) (b : Bool), parseLoop H (l :: t) b = parseLoop H t b := by
  intro t b
  have hh : isPrefixOfL (cl "##") (pyStrip l) = false := pipe_blocks_hash _ hpipe
  have h7 : ¬ 7 ≤ ((((pySplit '|' (pyStrip l)).drop 1).dropLast).map pyStrip).length := by
    omega
  cases b with
  | false => simp [parseLoop, hnoh]
  | true =>
    by_cases hsep : pyIn (cl "---") (pyStrip l) = true
    · simp [parseLoop, hnoh, hh, hpipe, hsep]
    · replace hsep : pyIn (cl "---") (pyStrip l) = false := by simpa using hsep
      have h7' : ¬ 7 ≤ (pySplit '|' (pyStrip l)).length - 1 - 1 := by simpa using h7
      simp [parseLoop, hnoh, hh, hpipe, hsep, h7']

theorem parseLoop_stops_after_hash (H l : List Char)
    (hhash : isPrefixOfL (cl "##") (pyStrip l) = true)
    (hnoh : pyIn H (pyStrip l) = false) :
    ∀ (ls1 : List (List Char)) (b : Bool),
      (b = true ∨ ∃ p ∈ ls1, pyIn H (pyStrip p) = true) →
      ∀ ls2 ls2', parseLoop H (ls1 ++ l :: ls2) b = parseLoop H (ls1 ++ l :: ls2') b := by
  intro ls1
  induction ls1 with
  | nil =>
    rintro b (rfl | ⟨p, hp, _⟩)
    · intro ls2 ls2'
      simp [parseLoop, hnoh, hhash]
    · exact absurd hp (List.not_mem_nil p)
  | cons x xs ih =>
    intro b hb ls2 ls2'
    by_cases h1 : pyIn H (pyStrip x) = true
    · simp [List.cons_append, parseLoop, h1, ih true (Or.inl rfl) ls2 ls2']
    · replace h1 : pyIn H (pyStrip x) = false := by simpa using h1
      have hxs : b = true ∨ ∃ p ∈ xs, pyIn H (pyStrip p) = true := by
        rcases hb with rfl | ⟨p, hp, hpt⟩
        · exact Or.inl rfl
        · rcases List.mem_cons.mp hp with rfl | hp'
          · rw [h1] at hpt; exact absurd hpt (by simp)
          · exact Or.inr ⟨p, hp', hpt⟩
      cases b with
      | false =>
        simp [List.cons_append, parseLoop, h1, ih false hxs ls2 ls2']
      | true =>
        by_cases h2 : isPrefixOfL (cl "##") (pyStrip x) = true
        · simp [List.cons_append, parseLoop, h1, h2]
        · replace h2 : isPrefixOfL (cl "##") (pyStrip x) = false := by simpa using h2
          by_cases h4 : isPrefixOfL (cl "|") (pyStrip x) = true
          · by_cases hsep : pyIn (cl "---") (pyStrip x) = true
            · simp [List.cons_append, parseLoop, h1, h2, h4, hsep,
                ih true (Or.inl rfl) ls2 ls2']
            · replace hsep : pyIn (cl "---") (pyStrip x) = false := by simpa using hsep
              by_cases h5 : 7 ≤ ((((pySplit '|' (pyStrip x)).drop 1).dropLast).map
                  pyStrip).length
              · simp [List.cons_append, parseLoop, h1, h2, h4, hsep, h5,
                  ih true (Or.inl rfl) ls2 ls2']
              · simp [List.cons_append, parseLoop, h1, h2, h4, hsep, h5,
                  ih true (Or.inl rfl) ls2 ls2']
          · replace h4 : isPrefixOfL (cl "|") (pyStrip x) = false := by simpa using h4
            simp [List.cons_append, parseLoop, h1, h2, h4,
              ih true (Or.inl rfl) ls2 ls2']

/-! ### Claims C6-C9: the Table Parser -/

/-- C7: for all documents D and all header strings H such that H does not
occur in D (Python's substring test `H in D` is false), parsing D with
header H returns an empty record sequence, and no error is produced (the
parser is a total function). -/
theorem c7_header_absent_yields_empty (D H : List Char)
    (h : pyIn H D = false) : parse_feature_table D H = [] := by
  unfold parse_feature_table
  apply parseLoop_no_header
  intro l hl
  cases e : pyIn H (pyStrip l) with
  | false => rfl
  | true =>
    exfalso
    have h3 : pyIn H l = true := pyIn_trans _ _ _ e (pyStrip_substr l)
    have h4 : pyIn H D = true :=
      pyIn_trans _ _ _ h3 (mem_pySplit_substr '\n' D l hl)
    rw [h] at h4
    exact Bool.false_ne_true h4

/-- Witness for C7 at a concrete document and header. -/
theorem c7_witness :
    pyIn (cl "TBL") (cl "# doc\n| a | b |") = false ∧
    parse_feature_table (cl "# doc\n| a | b |") (cl "TBL") = [] :=
  ⟨by decide, c7_header_absent_yields_empty _ _ (by decide)⟩

/-- Header marker used by the C8 document. -/
def c8Header : List Char := cl "| Name | SHA | Author | Branch | Date | Files | Message |"

/-- A document containing the configured header followed by a well-formed
table with one data row. -/
def c8Doc : List Char :=
  cl "# Features\n| Name | SHA | Author | Branch | Date | Files | Message |\n|---|---|---|---|---|---|---|\n| A | 0123456789abcdef0123456789abcdef01234567 | alice | main | 2024-01-01 | 3 | fix bug |\n## End"

/-- C8: for a document containing the configured header followed by a
well-formed table with the single data row
`| A | <40-hex> | alice | main | 2024-01-01 | 3 | fix bug |`, the parser
yields exactly one record with the seven cells mapped positionally and
whitespace trimmed. -/
theorem c8_single_row_parse :
    parse_feature_table c8Doc c8Header =
      [{ name := cl "A", sha := cl "0123456789abcdef0123456789abcdef01234567",
         author := cl "alice", branch := cl "main", date := cl "2024-01-01",
         files_changed := cl "3", message := cl "fix bug" }] := by
  decide

/-- Document for the C6 counterexample: after the header, one data row with
seven pipe-delimited cells of which only five are non-empty. -/
def c6Doc : List Char := cl "HDR\n|a|b|c|||f|g|"

/-- C6 counterexample: the claim counts *non-empty* cells, the code counts
all cells.  The row `|a|b|c|||f|g|` yields seven cells, only five of them
non-empty; the claim says such a row is silently skipped leaving the record
count unaffected, but `parse_feature_table` produces a record from it. -/
theorem c6_counterexample :
    (((((pySplit '|' (cl "|a|b|c|||f|g|")).drop 1).dropLast).map pyStrip).filter
        (fun c => !c.isEmpty)).length = 5 ∧
    parse_feature_table c6Doc (cl "HDR") =
      [{ name := cl "a", sha := cl "b", author := cl "c", branch := [],
         date := [], files_changed := cl "f", message := cl "g" }] := by
  decide

/-- C6 amended: a data row line (a `|`-starting line that does not contain
the header marker) whose split-and-trim yields fewer than seven cells —
counting empty cells as cells — is silently skipped: the parse result with
the row present equals the parse result with the row removed, whatever the
scanning state, and no error is raised. -/
theorem c6_amended_short_row_skipped (H l : List Char)
    (ls1 ls2 : List (List Char)) (b : Bool)
    (hpipe : isPrefixOfL (cl "|") (pyStrip l) = true)
    (hnoh : pyIn H (pyStrip l) = false)
    (hshort : ((((pySplit '|' (pyStrip l)).drop 1).dropLast).map pyStrip).length < 7) :
    parseLoop H (ls1 ++ l :: ls2) b = parseLoop H (ls1 ++ ls2) b :=
  parseLoop_congr_tail H ls1 (l :: ls2) ls2
    (fun b' => parseLoop_short_row_skip H l hpipe hnoh hshort ls2 b') b

/-- Witness for the amended C6 at a concrete short row inside a document. -/
theorem c6_witness :
    isPrefixOfL (cl "|") (pyStrip (cl "| x |")) = true ∧
    pyIn (cl "HDR") (pyStrip (cl "| x |")) = false ∧
    ((((pySplit '|' (pyStrip (cl "| x |"))).drop 1).dropLast).map pyStrip).length < 7 ∧
    parseLoop (cl "HDR") ([cl "HDR"] ++ cl "| x |" :: [cl "|a|b|c|d|e|f|g|"]) false =
      parseLoop (cl "HDR") ([cl "HDR"] ++ [cl "|a|b|c|d|e|f|g|"]) false :=
  ⟨by decide, by decide, by decide,
    c6_amended_short_row_skipped (cl "HDR") (cl "| x |") [cl "HDR"]
      [cl "|a|b|c|d|e|f|g|"] false (by decide) (by decide) (by decide)⟩

/-- Document for the C9 counterexample: the header marker is found on the
first line; the second line starts with `##` but also contains the marker;
a data row follows it. -/
def c9Doc : List Char := cl "HDR\n## HDR\n| a | b | c | d | e | f | g |"

/-- C9 counterexample: the claim says that once the header marker has been
found, no `|`-line after the first subsequent `##`-starting line
contributes a record.  In `c9Doc` the second line starts with `##`, yet the
data row after it still yields a record, because a `##` line that contains
the header marker is consumed by the marker branch instead of stopping the
scan. -/
theorem c9_counterexample :
    isPrefixOfL (cl "##") (pyStrip (cl "## HDR")) = true ∧
    parse_feature_table c9Doc (cl "HDR") =
      [{ name := cl "a", sha := cl "b", author := cl "c", branch := cl "d",
         date := cl "e", files_changed := cl "f", message := cl "g" }] := by
  decide

/-- C9 amended: once the header marker has been found (some earlier line
contains it), the scan stops at the first subsequent line that starts with
`##` *and does not itself contain the header marker*: the lines after that
line are irrelevant to the result — no later `|`-line contributes a record
— and stopping this way is not an error. -/
theorem c9_amended_stop_at_hash (H l : List Char)
    (ls1 ls2 ls2' : List (List Char))
    (hfound : ∃ p ∈ ls1, pyIn H (pyStrip p) = true)
    (hhash : isPrefixOfL (cl "##") (pyStrip l) = true)
    (hnoh : pyIn H (pyStrip l) = false) :
    parseLoop H (ls1 ++ l :: ls2) false = parseLoop H (ls1 ++ l :: ls2') false :=
  parseLoop_stops_after_hash H l hhash hnoh ls1 false (Or.inr hfound) ls2 ls2'

/-- Witness for the amended C9 at a concrete document. -/
theorem c9_witness :
    (∃ p ∈ [cl "HDR"], pyIn (cl "HDR") (pyStrip p) = true) ∧
    isPrefixOfL (cl "##") (pyStrip (cl "## X")) = true ∧
    pyIn (cl "HDR") (pyStrip (cl "## X")) = false ∧
    parseLoop (cl "HDR") ([cl "HDR"] ++ cl "## X" :: [cl "| a | b | c | d | e | f | g |"]) false =
      parseLoop (cl "HDR") ([cl "HDR"] ++ cl "## X" :: []) false :=
  ⟨by decide, by decide, by decide,
    c9_amended_stop_at_hash (cl "HDR") (cl "## X") [cl "HDR"]
      [cl "| a | b | c | d | e | f | g |"] [] (by decide) (by decide) (by decide)⟩

/-! ### Claims C1-C4: fetcher, commit lookup and engine ordering -/

/-- C1 counterexample: the four failure kinds of the Document Fetcher are
not distinguishable through the returned value — `fetch_github_file`
returns the very same value `none` for a 404, a 403, another transport
status (500), a timeout and a generic exception, so the failure cases are
collapsed into a single generic error value, contrary to the claim.  The
kinds differ only in diagnostics printed to stderr, which the caller does
not receive. -/
theorem c1_counterexample :
    fetch_github_file (fun _ => none) (.httpResponse 404 (some ⟨none, none⟩)) = none ∧
    fetch_github_file (fun _ => none) (.httpResponse 403 (some ⟨none, none⟩)) = none ∧
    fetch_github_file (fun _ => none) (.httpResponse 500 (some ⟨none, none⟩)) = none ∧
    fetch_github_file (fun _ => none) FetchEvent.timeout = none ∧
    fetch_github_file (fun _ => none) FetchEvent.raised = none := by
  decide

/-- C1 amended: for every failed document fetch (any non-200 response,
timeout, or exception), the Document Fetcher returns the single value
`None`; the four failure kinds are distinguished only in diagnostic text
printed to stderr, not through the returned value. -/
theorem c1_amended_failures_return_none
    (b64dec : List Char → Option (List Char)) (ev : FetchEvent)
    (h : ∀ status json, ev = FetchEvent.httpResponse status json → status ≠ 200) :
    fetch_github_file b64dec ev = none := by
  cases ev with
  | httpResponse s j =>
    have hs : s ≠ 200 := h s j rfl
    simp [fetch_github_file, hs]
  | timeout => rfl
  | raised => rfl

/-- Witness for the amended C1 at a concrete 404 response. -/
theorem c1_witness :
    (∀ status json, FetchEvent.httpResponse 404 none =
      FetchEvent.httpResponse status json → status ≠ 200) ∧
    fetch_github_file (fun _ => none) (FetchEvent.httpResponse 404 none) = none :=
  ⟨fun _ _ h => by cases h; decide,
    c1_amended_failures_return_none (fun _ => none) (FetchEvent.httpResponse 404 none)
      (fun _ _ h => by cases h; decide)⟩

/-- A well-formed forty-character lowercase hex SHA used by the concrete
scenarios. -/
def sha40a : List Char := List.replicate 40 'a'

theorem dictGet_cons_ne {α : Type} (m : List (List Char × α)) (k key : List Char)
    (v : α) (h : key ≠ k) : dictGet ((k, v) :: m) key = dictGet m key := by
  simp only [dictGet]
  cases e : dictGet m key <;> simp [e, h]

theorem step6_prepend_unused (cfg : VerificationConfig)
    (api : List Char → CommitApiEvent) (k : List Char) (va : Option (List Char))
    (vm vd : List Char) (feats : List Feature)
    (hk : ∀ f ∈ feats, f.sha ≠ k) :
    step6 { cfg with
            expected_authors := (k, va) :: cfg.expected_authors
            expected_messages := (k, vm) :: cfg.expected_messages
            expected_dates := (k, vd) :: cfg.expected_dates } api feats =
      step6 cfg api feats := by
  induction feats with
  | nil => rfl
  | cons f rest ih =>
    have hf : f.sha ≠ k := hk f (List.mem_cons_self f rest)
    have ihr := ih fun x hx => hk x (List.mem_cons_of_mem f hx)
    have ha := dictGet_cons_ne cfg.expected_authors k f.sha va hf
    have hm := dictGet_cons_ne cfg.expected_messages k f.sha vm hf
    have hd := dictGet_cons_ne cfg.expected_dates k f.sha vd hf
    simp only [step6, commit_field_checks, message_date_checks, ha, hm, hd, ihr]

/-- The document used by the C2 and C3 scenarios: a header line and one
data row whose sha cell is `sha40a`. -/
def c2Doc : List Char :=
  cl "HDR\n| A | " ++ sha40a ++ cl " | alice | main | 2024-01-01 | 3 | fix bug |"

/-- Commit-lookup oracle for the C2 scenario: every lookup succeeds with an
author whose login is `alice` and the commit message `fix bug\ndetails`. -/
def c2Api : List Char → CommitApiEvent := fun _ =>
  .httpResponse 200 (some (.dictBody
    ⟨true, true, some (cl "fix bug\ndetails"), .dict (some (cl "alice"))⟩))

/-- Configuration for the C2 counterexample: `expected_authors` contains
the malformed key `"zz"`, which no parsed record carries. -/
def c2Config : VerificationConfig where
  target_repo := cl "repo"
  target_branch := cl "main"
  feature_doc_path := cl "doc.md"
  table_header := cl "HDR"
  required_sections := []
  min_feature_count := 1
  expected_features := [(cl "A", sha40a)]
  expected_authors := [(cl "zz", some (cl "bob")), (sha40a, some (cl "alice"))]
  expected_messages := [(sha40a, cl "fix bug")]
  expected_dates := [(sha40a, cl "2024-01-01")]

/-- C2 counterexample: `expected_authors` holds the key `"zz"`, which does
not match `^[a-f0-9]{40}$` and is carried by no parsed feature record; the
claim says this must make the run fail, but the run returns `true` (with
one commit lookup, for the one well-formed record): the malformed key is
silently skipped. -/
theorem c2_counterexample :
    dictGet c2Config.expected_authors (cl "zz") = some (some (cl "bob")) ∧
    shaExact (cl "zz") = false ∧
    pythonReMatchSha (cl "zz") = false ∧
    (∀ f ∈ parse_feature_table c2Doc c2Config.table_header, f.sha ≠ cl "zz") ∧
    run_verification c2Config (fun _ => none)
      (FetchEvent.httpResponse 200 (some ⟨none, some c2Doc⟩)) c2Api =
      (true, [sha40a]) := by
  decide

/-- C2 amended: a sha key of `expected_authors`/`expected_messages`/
`expected_dates` is never itself format-checked; the `^[a-f0-9]{40}$`
check runs only on the shas of parsed feature records that are keys of
`expected_authors`.  A key carried by no parsed record — malformed or not —
is silently ignored: extending all three maps with such a key leaves the
verification outcome (boolean and lookup trace) unchanged. -/
theorem c2_amended_unmatched_keys_ignored (cfg : VerificationConfig)
    (b64dec : List Char → Option (List Char)) (fetchEv : FetchEvent)
    (api : List Char → CommitApiEvent) (doc k : List Char)
    (va : Option (List Char)) (vm vd : List Char)
    (hfetch : fetch_github_file b64dec fetchEv = some doc)
    (hk : ∀ f ∈ parse_feature_table doc cfg.table_header, f.sha ≠ k) :
    run_verification { cfg with
        expected_authors := (k, va) :: cfg.expected_authors
        expected_messages := (k, vm) :: cfg.expected_messages
        expected_dates := (k, vd) :: cfg.expected_dates } b64dec fetchEv api =
      run_verification cfg b64dec fetchEv api := by
  unfold run_verification
  rw [hfetch]
  simp only [step6_prepend_unused cfg api k va vm vd
    (parse_feature_table doc cfg.table_header) hk]

/-- The C2 configuration without the malformed key, used by the amended-C2
witness. -/
def c2BaseConfig : VerificationConfig :=
  { c2Config with
    expected_authors := [(sha40a, some (cl "alice"))]
    expected_messages := [(sha40a, cl "fix bug")]
    expected_dates := [(sha40a, cl "2024-01-01")] }

/-- Witness for the amended C2: adding the malformed key `"zz"` to all
three maps of a configuration does not change the outcome. -/
theorem c2_witness :
    fetch_github_file (fun _ => none)
      (FetchEvent.httpResponse 200 (some ⟨none, some c2Doc⟩)) = some c2Doc ∧
    (∀ f ∈ parse_feature_table c2Doc c2BaseConfig.table_header, f.sha ≠ cl "zz") ∧
    run_verification { c2BaseConfig with
        expected_authors := (cl "zz", some (cl "bob")) :: c2BaseConfig.expected_authors
        expected_messages := (cl "zz", cl "m") :: c2BaseConfig.expected_messages
        expected_dates := (cl "zz", cl "2024-01-01") :: c2BaseConfig.expected_dates }
      (fun _ => none) (FetchEvent.httpResponse 200 (some ⟨none, some c2Doc⟩)) c2Api =
    run_verification c2BaseConfig (fun _ => none)
      (FetchEvent.httpResponse 200 (some ⟨none, some c2Doc⟩)) c2Api :=
  ⟨by decide, by decide,
    c2_amended_unmatched_keys_ignored c2BaseConfig (fun _ => none)
      (FetchEvent.httpResponse 200 (some ⟨none, some c2Doc⟩)) c2Api c2Doc
      (cl "zz") (some (cl "bob")) (cl "m") (cl "2024-01-01")
      (by decide) (by decide)⟩

theorem dictGet_featNameToSha_none (feats : List Feature) (n : List Char)
    (h : ∀ f ∈ feats, f.name ≠ n) : dictGet (featNameToSha feats) n = none := by
  induction feats with
  | nil => rfl
  | cons f rest ih =>
    have hf : f.name ≠ n := h f (List.mem_cons_self f rest)
    have ihr := ih fun x hx => h x (List.mem_cons_of_mem f hx)
    have hne : ¬ n = f.name := fun hc => hf hc.symm
    simp only [featNameToSha, List.map_cons, dictGet]
    have ihr' : dictGet (List.map (fun f => (f.name, f.sha)) rest) n = none := ihr
    rw [ihr']
    simp [hne]

/-- C3: if some pair `(name, sha)` of `expected_features` names a feature
absent from the parsed table, the run returns failure and no commit-lookup
network call is attempted: step 5 (or an earlier step) fails strictly
before step 6 performs any lookup, so the lookup trace is empty. -/
theorem c3_missing_feature_fails_before_lookup (cfg : VerificationConfig)
    (b64dec : List Char → Option (List Char)) (fetchEv : FetchEvent)
    (api : List Char → CommitApiEvent) (doc fname esha : List Char)
    (hfetch : fetch_github_file b64dec fetchEv = some doc)
    (hmem : (fname, esha) ∈ cfg.expected_features)
    (hmiss : ∀ f ∈ parse_feature_table doc cfg.table_header, f.name ≠ fname) :
    run_verification cfg b64dec fetchEv api = (false, []) := by
  have hall : (cfg.expected_features.all fun p =>
      decide (dictGet (featNameToSha (parse_feature_table doc cfg.table_header)) p.1 =
        some p.2)) = false := by
    apply List.all_eq_false.mpr
    refine ⟨(fname, esha), hmem, ?_⟩
    rw [dictGet_featNameToSha_none _ _ hmiss]
    simp
  unfold run_verification
  rw [hfetch]
  simp [hall]

/-- Configuration for the C3 witness: `expected_features` demands a
feature `X` that the parsed table does not contain. -/
def c3Config : VerificationConfig :=
  { c2Config with expected_features := [(cl "X", sha40a)] }

/-- Witness for C3 at a concrete configuration and document. -/
theorem c3_witness :
    fetch_github_file (fun _ => none)
      (FetchEvent.httpResponse 200 (some ⟨none, some c2Doc⟩)) = some c2Doc ∧
    (cl "X", sha40a) ∈ c3Config.expected_features ∧
    (∀ f ∈ parse_feature_table c2Doc c3Config.table_header, f.name ≠ cl "X") ∧
    run_verification c3Config (fun _ => none)
      (FetchEvent.httpResponse 200 (some ⟨none, some c2Doc⟩)) c2Api = (false, []) :=
  ⟨by decide, by decide, by decide,
    c3_missing_feature_fails_before_lookup c3Config (fun _ => none)
      (FetchEvent.httpResponse 200 (some ⟨none, some c2Doc⟩)) c2Api c2Doc
      (cl "X") sha40a (by decide) (by decide) (by decide)⟩

/-- A forty-hex SHA followed by one newline: it does not match
`^[a-f0-9]{40}$` in the strict full-match sense, but Python's `re.match`
accepts it because `$` also matches before a final newline. -/
def badSha : List Char := List.replicate 40 'a' ++ ['\n']

/-- C4 (code bug): the claim says every sha string that does not match
`^[a-f0-9]{40}$` exactly fails immediately with no network call.  The code
validates with `re.match(r'^[a-f0-9]{40}$', s)`, and in Python `$` also
matches before a single trailing newline, so `badSha` (41 characters, not
an exact match — `shaExact badSha = false`) passes the precondition and a
network request is issued, contradicting both the claim and the code's own
error message ("must be 40 lowercase hex digits").  The claim's two
examples (39 hex characters; one uppercase character) do short-circuit
correctly with no call. -/
theorem c4_code_bug_newline_sha :
    shaExact badSha = false ∧
    pythonReMatchSha badSha = true ∧
    (verify_commit (fun _ => CommitApiEvent.timeout) badSha).2 = [badSha] ∧
    verify_commit (fun _ => CommitApiEvent.timeout) (List.replicate 39 'a') =
      (none, []) ∧
    verify_commit (fun _ => CommitApiEvent.timeout) ('A' :: List.replicate 39 'a') =
      (none, []) := by
  decide

/-! ### Claims C5 and C10: per-commit field checks -/

theorem verify_commit_some_format (api : List Char → CommitApiEvent)
    (sha : List Char) (r : VCResult) (calls : List (List Char))
    (h : verify_commit api sha = (some r, calls)) :
    pythonReMatchSha sha = true := by
  cases e : pythonReMatchSha sha
  · rw [verify_commit] at h
    simp [e] at h
  · rfl

theorem step6_cons_eval (cfg : VerificationConfig)
    (api : List Char → CommitApiEvent) (feat : Feature) (rest : List Feature)
    (ea : Option (List Char)) (cd : CommitDetail) (calls : List (List Char))
    (hA : dictGet cfg.expected_authors feat.sha = some ea)
    (hvc : verify_commit api feat.sha = (some (VCResult.dictDetail cd), calls)) :
    step6 cfg api (feat :: rest) =
      if commit_field_checks cfg feat cd then
        ((step6 cfg api rest).1, calls ++ (step6 cfg api rest).2)
      else (false, calls) := by
  have hre := verify_commit_some_format api feat.sha _ _ hvc
  simp [step6, hA, hre, hvc]

/-- C5: behaviour of the per-commit author check.  Given a record whose sha
is a key of `expected_authors` (bound to `ea`) and a successful commit
lookup returning detail `cd`: when the author check passes the run
continues with the message and date checks; when it fails the whole run
fails there.  The check passes for a null/absent actual author exactly when
`ea` is null (the warning case), and for a present author exactly when its
login handle exists, is non-empty, and equals `ea` — so a null-but-expected
author, an empty or missing handle, and any handle difference all fail. -/
theorem c5_author_check_behaviour (cfg : VerificationConfig)
    (api : List Char → CommitApiEvent) (feat : Feature) (rest : List Feature)
    (ea : Option (List Char)) (cd : CommitDetail) (calls : List (List Char))
    (hA : dictGet cfg.expected_authors feat.sha = some ea)
    (hvc : verify_commit api feat.sha = (some (VCResult.dictDetail cd), calls)) :
    (author_check ea cd = true →
      step6 cfg api (feat :: rest) =
        if message_date_checks cfg feat cd then
          ((step6 cfg api rest).1, calls ++ (step6 cfg api rest).2)
        else (false, calls)) ∧
    (author_check ea cd = false → step6 cfg api (feat :: rest) = (false, calls)) ∧
    (cd.author = none → (author_check ea cd = true ↔ ea = none)) ∧
    (∀ lo, cd.author = some lo →
      (author_check ea cd = true ↔ ∃ l, lo = some l ∧ l ≠ [] ∧ ea = some l)) := by
  have hs := step6_cons_eval cfg api feat rest ea cd calls hA hvc
  have hcfc : commit_field_checks cfg feat cd =
      (author_check ea cd && message_date_checks cfg feat cd) := by
    rw [commit_field_checks, hA]
    rfl
  refine ⟨?_, ?_, ?_, ?_⟩
  · intro hok
    rw [hs, hcfc, hok, Bool.true_and]
  · intro hbad
    rw [hs, hcfc, hbad, Bool.false_and]
    simp
  · intro hnone
    simp [author_check, hnone]
  · intro lo hlo
    cases lo with
    | none => simp [author_check, hlo]
    | some l =>
      by_cases he : l = []
      · subst he
        simp [author_check, hlo]
      · simp [author_check, hlo, he]

/-- The feature record parsed from the data row of `c2Doc`. -/
def featA : Feature :=
  { name := cl "A", sha := sha40a, author := cl "alice", branch := cl "main",
    date := cl "2024-01-01", files_changed := cl "3", message := cl "fix bug" }

/-- The commit detail returned by `c2Api` for any SHA. -/
def cdAlice : CommitDetail :=
  { author := some (some (cl "alice")), commitMessage := some (cl "fix bug\ndetails") }

/-- Commit-lookup oracle whose commits have a null author. -/
def c5Api : List Char → CommitApiEvent := fun _ =>
  .httpResponse 200 (some (.dictBody ⟨true, true, some (cl "m"), .null⟩))

/-- Witness for C5: a commit with a null author while the configuration
expects the handle `alice` makes the author check fail and the run fail. -/
theorem c5_witness :
    dictGet c2BaseConfig.expected_authors featA.sha = some (some (cl "alice")) ∧
    verify_commit c5Api featA.sha =
      (some (VCResult.dictDetail ⟨none, some (cl "m")⟩), [sha40a]) ∧
    author_check (some (cl "alice")) ⟨none, some (cl "m")⟩ = false ∧
    step6 c2BaseConfig c5Api [featA] = (false, [sha40a]) :=
  ⟨by decide, by decide, by decide,
    (c5_author_check_behaviour c2BaseConfig c5Api featA [] (some (cl "alice"))
      ⟨none, some (cl "m")⟩ [sha40a] (by decide) (by decide)).2.1 (by decide)⟩

/-- C10: for a record whose sha is a key of `expected_authors` but not of
`expected_dates`, when the author and message checks pass and the record's
date matches the format pattern, the date check compares the date against
`None` (the `dict.get` missing-key default), necessarily fails, and the
run returns failure — no `KeyError` is raised (the embedding of `.get` is
the total `dictGet`, returning `none` for a missing key). -/
theorem c10_missing_date_key_fails (cfg : VerificationConfig)
    (api : List Char → CommitApiEvent) (feat : Feature) (rest : List Feature)
    (ea : Option (List Char)) (cd : CommitDetail) (calls : List (List Char))
    (hA : dictGet cfg.expected_authors feat.sha = some ea)
    (hD : dictGet cfg.expected_dates feat.sha = none)
    (hvc : verify_commit api feat.sha = (some (VCResult.dictDetail cd), calls))
    (hauth : author_check ea cd = true)
    (hmsg : firstLine (cd.commitMessage.getD []) =
      (dictGet cfg.expected_messages feat.sha).getD [])
    (hdate : pyMatchDate feat.date = true) :
    message_date_checks cfg feat cd = false ∧
    step6 cfg api (feat :: rest) = (false, calls) := by
  have hmdc : message_date_checks cfg feat cd = false := by
    simp [message_date_checks, hmsg, hdate, hD]
  refine ⟨hmdc, ?_⟩
  have hs := step6_cons_eval cfg api feat rest ea cd calls hA hvc
  have hcfc : commit_field_checks cfg feat cd = false := by
    rw [commit_field_checks, hA]
    show (author_check ea cd && message_date_checks cfg feat cd) = false
    rw [hauth, hmdc]
    rfl
  rw [hs, hcfc]
  simp

/-- The C2 base configuration with an empty `expected_dates` map, for the
C10 witness. -/
def cfgNoDates : VerificationConfig :=
  { c2BaseConfig with expected_dates := [] }

/-- Witness for C10: author and message checks pass, the date is
well-formed, but its sha has no `expected_dates` entry, so the run fails. -/
theorem c10_witness :
    dictGet cfgNoDates.expected_authors featA.sha = some (some (cl "alice")) ∧
    dictGet cfgNoDates.expected_dates featA.sha = none ∧
    verify_commit c2Api featA.sha =
      (some (VCResult.dictDetail cdAlice), [sha40a]) ∧
    author_check (some (cl "alice")) cdAlice = true ∧
    firstLine (cdAlice.commitMessage.getD []) =
      (dictGet cfgNoDates.expected_messages featA.sha).getD [] ∧
    pyMatchDate featA.date = true ∧
    (message_date_checks cfgNoDates featA cdAlice = false ∧
      step6 cfgNoDates c2Api [featA] = (false, [sha40a])) :=
  ⟨by decide, by decide, by decide, by decide, by decide, by decide,
    c10_missing_date_key_fails cfgNoDates c2Api featA [] (some (cl "alice"))
      cdAlice [sha40a] (by decide) (by decide) (by decide) (by decide)
      (by decide) (by decide)⟩

end CommitDocVerifier
